import Mathlib

/-!
Verification of the template-to-markup compiler (`src/scripts/compiler.py`).

Text is modelled as `List Char` (one Python `str` value per list).  The
compiler's mutable instance state (`_assign_dict`, `built_dict`,
`built_html`) is threaded explicitly through a `CState` record, and all
observable side effects (file reads, file writes, log lines, invocations of
the external structured-data renderers) are recorded in an explicit event
trace.  External collaborators (the Markdown renderer, the CSS/JS/HTML
minifiers, the filesystem, the publication/art template fillers) are opaque
functions carried in a `Config` record, exactly as the spec designates them
as opaque services.  Recursion through includes and through the
variable-resolution loop is expressed with explicit fuel, so every
definition is executable and kernel-reducible.
-/

/-- Converts a Lean string literal to the `List Char` text representation. -/
def s2l (s : String) : List Char := s.data

/-- Number of occurrences of a character in a text. -/
def cnt (c : Char) : List Char → Nat
  | [] => 0
  | d :: rest => (if d = c then 1 else 0) + cnt c rest

/-- The two-character marker that opens a variable reference. -/
def mOpen : List Char := ['{', '{']

/-- The two-character marker that closes a variable reference. -/
def mClose : List Char := ['}', '}']

/-- Builds the literal text of a variable reference around a name. -/
def vref (n : List Char) : List Char := mOpen ++ n ++ mClose

/-- Substring test, the model of Python's `str.find(pat) != -1`. -/
def containsSub (pat : List Char) : List Char → Bool
  | [] => pat.isPrefixOf []
  | c :: rest => pat.isPrefixOf (c :: rest) || containsSub pat rest

/-- Replaces every (leftmost, non-overlapping) occurrence of `m` by `v`,
with explicit fuel; the model of Python's `str.replace`. -/
def replaceAllF (m v : List Char) : Nat → List Char → List Char
  | 0, l => l
  | _ + 1, [] => []
  | f + 1, c :: rest =>
    if m.isPrefixOf (c :: rest) ∧ m ≠ [] then
      v ++ replaceAllF m v f ((c :: rest).drop m.length)
    else
      c :: replaceAllF m v f rest

/-- Replaces every occurrence of `m` in `l` by `v` (Python `l.replace(m, v)`). -/
def replaceAll (m v l : List Char) : List Char := replaceAllF m v l.length l

/-- Characters allowed in a variable name (the `\w` class of the
variable-reference pattern). -/
def isVarChar (c : Char) : Bool := c.isAlphanum || c == '_'

/-- Strips space characters from the front of a text. -/
def skipWs (l : List Char) : List Char := l.dropWhile (fun c => c == ' ')

/-- Strips space characters from both ends of a text. -/
def trimSp (l : List Char) : List Char :=
  ((l.dropWhile (fun c => c == ' ')).reverse.dropWhile (fun c => c == ' ')).reverse

/-- Strips double-quote characters from both ends, the model of Python's
`str.strip('"')`. -/
def stripQuotes (l : List Char) : List Char :=
  ((l.dropWhile (fun c => c == '"')).reverse.dropWhile (fun c => c == '"')).reverse

/-- Takes the text before the first occurrence of `pat` and returns it with
the text after that occurrence; `none` when `pat` does not occur. -/
def takeUntilSub (pat : List Char) : List Char → Option (List Char × List Char)
  | [] => if pat.isPrefixOf [] then some ([], []) else none
  | c :: rest =>
    if pat.isPrefixOf (c :: rest) then some ([], (c :: rest).drop pat.length)
    else (takeUntilSub pat rest).map (fun r => (c :: r.1, r.2))

/-- Path join, the model of `os.path.join` followed by the source's
backslash-to-forward-slash normalisation. -/
def joinP (a b : List Char) : List Char := a ++ '/' :: b

/-- Association lookup in a first-match-wins association list (the model of a
Python dict whose updates are consed to the front). -/
def alookup (k : List Char) : List (List Char × List Char) → Option (List Char)
  | [] => none
  | p :: rest => if p.1 = k then some p.2 else alookup k rest

/-- Splits a text at commas, the model of Python's `str.split(',')`. -/
def splitCommaAux : List Char → List Char → List (List Char)
  | [], acc => [acc.reverse]
  | c :: rest, acc =>
    if c = ',' then acc.reverse :: splitCommaAux rest [] else splitCommaAux rest (c :: acc)

/-- Splits a text at commas. -/
def splitComma (l : List Char) : List (List Char) := splitCommaAux l []

/-- Python slice `l[5:-5]`, used on the condition line of publication and art
sub-files. -/
def slice5 (l : List Char) : List Char := (l.drop 5).take (l.length - 10)

/-- The two language catalogs of the configuration (`Lang.en`, `Lang.cn`). -/
inductive LangId
  | en
  | cn
deriving DecidableEq

/-- Observable side effects of one compiler run: file reads and writes, log
lines, and invocations of the external structured-data renderers. -/
inductive Event
  | readFile (name : List Char)
  | writeFile (name : List Char)
  | logReuse (name : List Char)
  | logInclude (name : List Char)
  | logCss (name : List Char)
  | logJs (name : List Char)
  | warnMissing (name : List Char)
  | errMissing (name : List Char)
  | fillPapers (name : List Char)
  | fillArts (name : List Char)
deriving DecidableEq

/-- Run configuration: the language catalogs and flags loaded from
`config.ini`, the directory layout, the filesystem, and the opaque external
collaborators (Markdown renderer, minifiers, image markup builder, and the
structured-data template fillers). -/
structure Config where
  markdown : List Char → List Char
  getImage : List Char → List Char → List Char
  fillPapersFn : List (List Char) → List (List Char) → List Char
  fillArtsFn : List (List Char) → List (List Char) → List Char
  cssCompress : List Char → List Char
  jsMin : List Char → List Char
  htmlMin : List Char → List Char
  fs : List Char → Option (List (List Char))
  en : List (List Char × List Char)
  cn : List (List Char × List Char)
  current : LangId
  minimizeCss : Bool
  minimizeJs : Bool
  minimizeHtml : Bool
  dirTemplates : List Char
  dirBuilds : List Char
  dirCss : List Char
  dirJs : List Char
  dirImages : List Char

/-- The catalog belonging to a language identifier. -/
def Config.catalog (cfg : Config) : LangId → List (List Char × List Char)
  | LangId.en => cfg.en
  | LangId.cn => cfg.cn

/-- Mutable state of one `Compiler` instance: `_assign_dict` (alias
redirections), `built_dict` (the processed-asset set) and `built_html` (the
per-file render cache). -/
structure CState where
  assign : List (List Char × List Char)
  built_dict : List (List Char)
  built_html : List (List Char × List Char)
deriving DecidableEq

/-- The empty compiler state a fresh `Compiler` instance starts from. -/
def st0 : CState := ⟨[], [], []⟩

/-- Modelled from the spec: the directive matcher of the missing
`scripts/utils/regex.py`.  Tries to read a variable reference at the head of
the text: the opening marker, a nonempty run of word characters, and the
closing marker; returns the full matched text and the captured name. -/
def matchVarAt (l : List Char) : Option (List Char × List Char) :=
  match l with
  | '{' :: '{' :: rest =>
    match rest.dropWhile isVarChar with
    | '}' :: '}' :: _ =>
      if (rest.takeWhile isVarChar).isEmpty then none
      else some ('{' :: '{' :: (rest.takeWhile isVarChar ++ ['}', '}']),
                 rest.takeWhile isVarChar)
    | _ => none
  | _ => none

/-- Modelled from the spec: leftmost search for a variable reference, the
model of `Regex.VARIABLE.search` from the missing `scripts/utils/regex.py`. -/
def findVar : List Char → Option (List Char × List Char)
  | [] => none
  | c :: rest =>
    match matchVarAt (c :: rest) with
    | some r => some r
    | none => findVar rest

/-- Modelled from the spec: the assignment directive pattern of the missing
`scripts/utils/regex.py` — an HTML comment of the shape
`<!-- alias = target -->`, read at the head of the text, capturing alias and
target. -/
def parseAssignAt (l : List Char) : Option (List Char × List Char) :=
  match l with
  | '<' :: '!' :: '-' :: '-' :: rest =>
    let r1 := skipWs rest
    let lhs := r1.takeWhile isVarChar
    if lhs.isEmpty then none
    else
      match skipWs (r1.drop lhs.length) with
      | '=' :: r2 =>
        let r3 := skipWs r2
        let rhs := r3.takeWhile isVarChar
        if rhs.isEmpty then none
        else if (s2l "-->").isPrefixOf (skipWs (r3.drop rhs.length)) then some (lhs, rhs)
        else none
      | _ => none
  | _ => none

/-- Modelled from the spec: a keyword directive pattern of the missing
`scripts/utils/regex.py` — an HTML comment `<!-- key path -->` read at the
head of the text, capturing the path. -/
def parseDirAt (key : List Char) (l : List Char) : Option (List Char) :=
  match l with
  | '<' :: '!' :: '-' :: '-' :: rest =>
    let r1 := skipWs rest
    if key.isPrefixOf r1 then
      let r2 := skipWs (r1.drop key.length)
      let p := r2.takeWhile (fun c => !c.isWhitespace)
      if p.isEmpty then none
      else if (s2l "-->").isPrefixOf (skipWs (r2.drop p.length)) then some p
      else none
    else none
  | _ => none

/-- Modelled from the spec: the image directive pattern of the missing
`scripts/utils/regex.py` — `<!-- image: path | description -->` read at the
head of the text, capturing path and description. -/
def parseImageAt (l : List Char) : Option (List Char × List Char) :=
  match l with
  | '<' :: '!' :: '-' :: '-' :: rest =>
    let r1 := skipWs rest
    if (s2l "image:").isPrefixOf r1 then
      let r2 := skipWs (r1.drop 6)
      let p := r2.takeWhile (fun c => !c.isWhitespace && c != '|')
      if p.isEmpty then none
      else
        match skipWs (r2.drop p.length) with
        | '|' :: r3 =>
          match takeUntilSub (s2l "-->") r3 with
          | some (d, _) => some (p, trimSp d)
          | none => none
        | _ => none
    else none
  | _ => none

/-- Searches a parser at every position of a line (the model of `re.search`,
which scans the whole string for the leftmost match). -/
def scanFor (p : List Char → Option α) : List Char → Option α
  | [] => none
  | c :: rest =>
    match p (c :: rest) with
    | some r => some r
    | none => scanFor p rest

namespace Regex

/-- Modelled from the spec: `Regex.ASSIGN.search`. -/
def ASSIGN : List Char → Option (List Char × List Char) := scanFor parseAssignAt

/-- Modelled from the spec: `Regex.INCLUDE.search`. -/
def INCLUDE : List Char → Option (List Char) := scanFor (parseDirAt (s2l "include:"))

/-- Modelled from the spec: `Regex.CSS.search`. -/
def CSS : List Char → Option (List Char) := scanFor (parseDirAt (s2l "css:"))

/-- Modelled from the spec: `Regex.JS.search`. -/
def JS : List Char → Option (List Char) := scanFor (parseDirAt (s2l "js:"))

/-- Modelled from the spec: `Regex.IMAGE.search`. -/
def IMAGE : List Char → Option (List Char × List Char) := scanFor parseImageAt

/-- Modelled from the spec: `Regex.PUBLICATION.search`. -/
def PUBLICATION : List Char → Option (List Char) := scanFor (parseDirAt (s2l "publication:"))

/-- Modelled from the spec: `Regex.ART.search`. -/
def ART : List Char → Option (List Char) := scanFor (parseDirAt (s2l "art:"))

/-- Modelled from the spec: `Regex.VARIABLE.search`, the variable-reference
pattern. -/
def VARIABLE : List Char → Option (List Char × List Char) := findVar

end Regex

/-- The fast-path test of the per-line loop: a line is special when it
contains the comment marker or the reference marker
(`line.find('<!--') == -1 and line.find('{{') == -1` negated). -/
def hasMarker (line : List Char) : Bool :=
  containsSub (s2l "<!--") line || containsSub mOpen line

namespace Compiler

/-- Preprocessing of `Compiler.parse_markdown` before the external Markdown
renderer runs: strip surrounding double quotes, then replace each literal
backslash pair by an HTML line break. -/
def mdPre (text : List Char) : List Char :=
  replaceAll (s2l "\\\\") (s2l "<br />") (stripQuotes text)

/-- Embedding of `Compiler.parse_markdown`: preprocess, render through the
external Markdown converter, then strip the wrapping paragraph labels when
the rendering is longer than 7 characters, starts with the paragraph opener
and ends with the paragraph closer. -/
def parse_markdown (cfg : Config) (text : List Char) : List Char :=
  if 7 < (cfg.markdown (mdPre text)).length ∧
      (cfg.markdown (mdPre text)).take 3 = s2l "<p>" ∧
      (cfg.markdown (mdPre text)).drop ((cfg.markdown (mdPre text)).length - 4) = s2l "</p>" then
    ((cfg.markdown (mdPre text)).drop 3).take ((cfg.markdown (mdPre text)).length - 7)
  else cfg.markdown (mdPre text)

/-- Alias redirection of `parse_variable`: replace the captured name by its
target when it is a key of `_assign_dict`. -/
def redirect (assign : List (List Char × List Char)) (name : List Char) : List Char :=
  match alookup name assign with
  | some t => t
  | none => name

/-- Language forcing of `parse_variable`, exactly as the source tests it: the
Chinese suffix via an ends-with test (`variable[-3:] == '_cn'`), the English
suffix via a substring test (`variable.find('_en') != -1`), each followed by
removal of the last three characters (`variable[:-3]`). -/
def forceLang (cfg : Config) (name : List Char) : LangId × List Char :=
  if (s2l "_cn").isSuffixOf name then (LangId.cn, name.take (name.length - 3))
  else if containsSub (s2l "_en") name then (LangId.en, name.take (name.length - 3))
  else (cfg.current, name)

/-- Embedding of `Compiler.parse_variable` with explicit fuel: repeatedly find
the leftmost variable reference, redirect, force language, look the name up
in the selected catalog and then in English, render the found text through
`parse_markdown` and substitute it for every occurrence of the matched
reference; on a two-tier miss log a warning and an error and stop, returning
the line as it stands.  `none` means the fuel ran out. -/
def parse_variable (cfg : Config) (assign : List (List Char × List Char)) :
    Nat → List Char → Option (List Char × List Event)
  | 0, _ => none
  | fuel + 1, line =>
    match Regex.VARIABLE line with
    | none => some (line, [])
    | some (m, name) =>
      let v := forceLang cfg (redirect assign name)
      match alookup v.2 (cfg.catalog v.1) with
      | some value =>
        parse_variable cfg assign fuel (replaceAll m (parse_markdown cfg value) line)
      | none =>
        match alookup v.2 cfg.en with
        | some value =>
          (parse_variable cfg assign fuel (replaceAll m (parse_markdown cfg value) line)).map
            (fun r => (r.1, Event.warnMissing v.2 :: r.2))
        | none => some (line, [Event.warnMissing v.2, Event.errMissing v.2])

/-- One substitution step of the `parse_variable` loop: `some line2` exactly
when the leftmost reference resolves (in the selected catalog or through the
English fallback) and the loop continues on `line2`. -/
def pvStep (cfg : Config) (assign : List (List Char × List Char)) (line : List Char) :
    Option (List Char) :=
  match Regex.VARIABLE line with
  | none => none
  | some (m, name) =>
    let v := forceLang cfg (redirect assign name)
    match alookup v.2 (cfg.catalog v.1) with
    | some value => some (replaceAll m (parse_markdown cfg value) line)
    | none =>
      match alookup v.2 cfg.en with
      | some value => some (replaceAll m (parse_markdown cfg value) line)
      | none => none

/-- Number of variable references remaining in a line (leftmost,
non-overlapping matches of the variable pattern). -/
def countRefsF : Nat → List Char → Nat
  | 0, _ => 0
  | _ + 1, [] => 0
  | f + 1, c :: rest =>
    match matchVarAt (c :: rest) with
    | some r => 1 + countRefsF f ((c :: rest).drop r.1.length)
    | none => countRefsF f rest

/-- Number of variable references remaining in a line. -/
def countRefs (l : List Char) : Nat := countRefsF l.length l

/-- Source path of a stylesheet asset (`os.path.join(Dir.templates, Dir.css,
css_filename)`). -/
def cssSrc (cfg : Config) (f : List Char) : List Char :=
  joinP cfg.dirTemplates (joinP cfg.dirCss f)

/-- Output path of a stylesheet asset (`os.path.join(Dir.builds, Dir.css,
css_filename)`). -/
def cssOut (cfg : Config) (f : List Char) : List Char :=
  joinP cfg.dirBuilds (joinP cfg.dirCss f)

/-- Source path of a script asset. -/
def jsSrc (cfg : Config) (f : List Char) : List Char :=
  joinP cfg.dirTemplates (joinP cfg.dirJs f)

/-- Output path of a script asset. -/
def jsOut (cfg : Config) (f : List Char) : List Char :=
  joinP cfg.dirBuilds (joinP cfg.dirJs f)

/-- Embedding of `Compiler.compile_css`: return `false` at once when the
filename is already in the processed-asset set, otherwise read the source,
minify unless the name contains `.min.` or minification is off, write the
output file, record the filename in the set and return `true`.  `none`
models the fatal I/O error of a missing source file. -/
def compile_css (cfg : Config) (css_filename : List Char) (s : CState) :
    Option (Bool × CState × List Event) :=
  if css_filename ∈ s.built_dict then some (false, s, [])
  else
    match cfg.fs (cssSrc cfg css_filename) with
    | none => none
    | some lines =>
      let content := lines.flatten
      let _ := if cfg.minimizeCss && !containsSub (s2l ".min.") css_filename then
                 cfg.cssCompress content
               else content
      some (true, { s with built_dict := css_filename :: s.built_dict },
            [Event.readFile (cssSrc cfg css_filename), Event.writeFile (cssOut cfg css_filename)])

/-- Embedding of `Compiler.compile_js`, sharing the same processed-asset set
`built_dict` with the stylesheet pipeline. -/
def compile_js (cfg : Config) (js_filename : List Char) (s : CState) :
    Option (Bool × CState × List Event) :=
  if js_filename ∈ s.built_dict then some (false, s, [])
  else
    match cfg.fs (jsSrc cfg js_filename) with
    | none => none
    | some lines =>
      let content := lines.flatten
      let _ := if cfg.minimizeJs && !containsSub (s2l ".min.") js_filename then
                 cfg.jsMin content
               else content
      some (true, { s with built_dict := js_filename :: s.built_dict },
            [Event.readFile (jsSrc cfg js_filename), Event.writeFile (jsOut cfg js_filename)])

/-- Embedding of `Compiler.compile_publication`: return the cached rendering
when the (template-directory-joined) filename is a key of the render cache;
otherwise read the sub-file, parse the condition list from its first line
(slice `[5:-5]` split at commas; the source's per-condition strip loop
rebinds the loop variable and therefore strips nothing) and delegate to the
external publication renderer.  The result is not stored anywhere. -/
def compile_publication (cfg : Config) (s : CState) (pub_filename : List Char) :
    Option (List Char × List Event) :=
  match alookup pub_filename s.built_html with
  | some h => some (h, [])
  | none =>
    match cfg.fs pub_filename with
    | none => none
    | some [] => none
    | some (first :: rest) =>
      some (cfg.fillPapersFn (splitComma (slice5 first)) rest,
            [Event.readFile pub_filename, Event.fillPapers pub_filename])

/-- Embedding of `Compiler.compile_art`, identical to `compile_publication`
with the art renderer. -/
def compile_art (cfg : Config) (s : CState) (art_filename : List Char) :
    Option (List Char × List Event) :=
  match alookup art_filename s.built_html with
  | some h => some (h, [])
  | none =>
    match cfg.fs art_filename with
    | none => none
    | some [] => none
    | some (first :: rest) =>
      some (cfg.fillArtsFn (splitComma (slice5 first)) rest,
            [Event.readFile art_filename, Event.fillArts art_filename])

/-- The stylesheet reference tag emitted for a stylesheet directive. -/
def linkTag (cfg : Config) (f : List Char) : List Char :=
  s2l "<link rel=\"stylesheet\" href=\"/" ++ joinP cfg.dirCss f ++ s2l "\" />"

/-- The script reference tag emitted for a script directive. -/
def scriptTag (cfg : Config) (f : List Char) : List Char :=
  s2l "<script src=\"/" ++ joinP cfg.dirJs f ++ s2l "\"></script>"

/-- Tail of the per-line loop after the four early-return directives: the
image, publication and art embeds transform the line in that order (each
searched on the line as transformed so far), and the resulting line always
undergoes variable resolution.  The state is never changed here. -/
def processTail (cfg : Config) (pvFuel : Nat) (line : List Char) (s : CState) :
    Option (List Char × CState × List Event) :=
  match (match Regex.IMAGE line with
         | some pd =>
           (parse_variable cfg s.assign pvFuel pd.2).map
             (fun r => (cfg.markdown (cfg.getImage ('/' :: joinP cfg.dirImages pd.1) r.1), r.2))
         | none => some (line, [])) with
  | none => none
  | some (line1, e1) =>
    match (match Regex.PUBLICATION line1 with
           | some pf => compile_publication cfg s (joinP cfg.dirTemplates pf)
           | none => some (line1, [])) with
    | none => none
    | some (line2, e2) =>
      match (match Regex.ART line2 with
             | some af => compile_art cfg s (joinP cfg.dirTemplates af)
             | none => some (line2, [])) with
      | none => none
      | some (line3, e3) =>
        match parse_variable cfg s.assign pvFuel line3 with
        | none => none
        | some (line4, e4) => some (line4, s, e1 ++ e2 ++ e3 ++ e4)

/-- One iteration of the per-line loop of `Compiler.compile`: the verbatim
fast path for lines without markers, then the assignment, include,
stylesheet and script directives tried in that order, each ending the line's
handling, and finally the embed-and-variable tail.  `rec` is the recursive
compile entry used by the include directive. -/
def processLine (cfg : Config)
    (rec : List Char → CState → Option (List Char × CState × List Event))
    (pvFuel : Nat) (line : List Char) (s : CState) :
    Option (List Char × CState × List Event) :=
  if hasMarker line then
    match Regex.ASSIGN line with
    | some lr => some ([], { s with assign := (lr.1, lr.2) :: s.assign }, [])
    | none =>
      match Regex.INCLUDE line with
      | some inc => (rec inc s).map (fun r => (r.1, r.2.1, Event.logInclude inc :: r.2.2))
      | none =>
        match Regex.CSS line with
        | some f => (compile_css cfg f s).map
            (fun r => (linkTag cfg f, r.2.1, Event.logCss f :: r.2.2))
        | none =>
          match Regex.JS line with
          | some f => (compile_js cfg f s).map
              (fun r => (scriptTag cfg f, r.2.1, Event.logJs f :: r.2.2))
          | none => processTail cfg pvFuel line s
  else some (line, s, [])

/-- Sequential processing of the lines of a file, threading the state and
concatenating output and traces. -/
def processLines (cfg : Config)
    (rec : List Char → CState → Option (List Char × CState × List Event))
    (pvFuel : Nat) : List (List Char) → CState → Option (List Char × CState × List Event)
  | [], s => some ([], s, [])
  | l :: ls, s =>
    match processLine cfg rec pvFuel l s with
    | none => none
    | some (h1, s1, e1) =>
      match processLines cfg rec pvFuel ls s1 with
      | none => none
      | some (h2, s2, e2) => some (h1 ++ h2, s2, e1 ++ e2)

/-- Embedding of `Compiler.compile` with explicit fuel bounding the include
depth: return the cached rendering at once on a render-cache hit; otherwise
read the file's lines, process them sequentially, optionally minify and
write when called as the compilation root, store the result in the render
cache and return it.  `none` models fuel exhaustion or a fatal missing-file
error. -/
def compile (cfg : Config) : Nat → Bool → List Char → CState →
    Option (List Char × CState × List Event)
  | 0, _, _, _ => none
  | fuel + 1, write_to_file, filename, s =>
    match alookup filename s.built_html with
    | some h => some (h, s, [Event.logReuse filename])
    | none =>
      match cfg.fs (joinP cfg.dirTemplates filename) with
      | none => none
      | some lines =>
        match processLines cfg (fun g t => compile cfg fuel false g t) (fuel + 1) lines s with
        | none => none
        | some (html, s1, evs) =>
          some (if write_to_file && cfg.minimizeHtml then cfg.htmlMin html else html,
                { s1 with built_html :=
                    (filename,
                     if write_to_file && cfg.minimizeHtml then cfg.htmlMin html else html) ::
                      s1.built_html },
                Event.readFile (joinP cfg.dirTemplates filename) ::
                  (if write_to_file then
                     evs ++ [Event.writeFile (joinP cfg.dirBuilds filename)]
                   else evs))

end Compiler

/-- Precondition of the termination claim as the spec states it: no catalog
value, after Markdown rendering by `parse_markdown`, contains a variable
reference. -/
def noRefVals (cfg : Config) : Prop :=
  (∀ p ∈ cfg.en, Regex.VARIABLE (Compiler.parse_markdown cfg p.2) = none) ∧
  (∀ p ∈ cfg.cn, Regex.VARIABLE (Compiler.parse_markdown cfg p.2) = none)

/-- Strengthened precondition under which the variable-resolution loop
terminates: no catalog value, after Markdown rendering by `parse_markdown`,
contains an opening-brace character. -/
def braceFreeVals (cfg : Config) : Prop :=
  (∀ p ∈ cfg.en, cnt '{' (Compiler.parse_markdown cfg p.2) = 0) ∧
  (∀ p ∈ cfg.cn, cnt '{' (Compiler.parse_markdown cfg p.2) = 0)

/-- A base configuration with trivial external collaborators, specialised by
the concrete scenarios below. -/
def cfgBase : Config where
  markdown := fun t => t
  getImage := fun p d => p ++ d
  fillPapersFn := fun _ _ => s2l "P"
  fillArtsFn := fun _ _ => s2l "A"
  cssCompress := fun t => t
  jsMin := fun t => t
  htmlMin := fun t => t
  fs := fun _ => none
  en := []
  cn := []
  current := LangId.en
  minimizeCss := false
  minimizeJs := false
  minimizeHtml := false
  dirTemplates := s2l "t"
  dirBuilds := s2l "b"
  dirCss := s2l "css"
  dirJs := s2l "js"
  dirImages := s2l "img"

/-- Scenario: one template file `f` containing one plain line. -/
def cfgC1 : Config :=
  { cfgBase with fs := fun p => if p = s2l "t/f" then some [s2l "hi"] else none }

/-- Scenario: the source of `f` mutated between two renders. -/
def cfgC1b : Config :=
  { cfgBase with fs := fun p => if p = s2l "t/f" then some [s2l "changed"] else none }

/-- Scenario: template directory holding one stylesheet and one script
asset, and a catalog entry for a variable `v`. -/
def cfgC2 : Config :=
  { cfgBase with
    en := [(s2l "v", s2l "V")]
    fs := fun p =>
      if p = s2l "t/css/a.css" then some [s2l "x"]
      else if p = s2l "t/js/a.js" then some [s2l "y"]
      else none }

/-- Scenario extending `cfgC2` with a publication sub-file `pub.p` and an
art sub-file `art.a` in the template directory. -/
def cfgC2b : Config :=
  { cfgBase with
    en := [(s2l "v", s2l "V")]
    fs := fun p =>
      if p = s2l "t/css/a.css" then some [s2l "x"]
      else if p = s2l "t/js/a.js" then some [s2l "y"]
      else if p = s2l "t/pub.p" then some [s2l "<!-- cc -->", s2l "B"]
      else if p = s2l "t/art.a" then some [s2l "<!-- cc -->", s2l "C"]
      else none }

/-- A concrete recursive-compile stub used to instantiate the per-line
dispatch theorem. -/
def recW : List Char → CState → Option (List Char × CState × List Event) :=
  fun _ t => some (s2l "INC", t, [])

/-- Scenario for the interior language suffix: the active Chinese catalog
defines `a_enb`; neither catalog defines `a_`. -/
def cfgC3 : Config :=
  { cfgBase with
    current := LangId.cn
    cn := [(s2l "a_enb", s2l "X")]
    en := [(s2l "other", s2l "Y")] }

/-- Scenario for the two-tier miss: `good` is defined everywhere, `bad`
nowhere. -/
def cfgC4 : Config :=
  { cfgBase with en := [(s2l "good", s2l "G")], cn := [(s2l "good", s2l "GC")] }

/-- Scenario for the English fallback: the active language is Chinese, and
`fb` is defined only in English. -/
def cfgC5 : Config :=
  { cfgBase with
    current := LangId.cn
    cn := [(s2l "other", s2l "O")]
    en := [(s2l "fb", s2l "FB")] }

/-- Scenario: a template tree holding the stylesheet `a.css` and the script
`a.js`. -/
def cfgC6 : Config := cfgC2

/-- Scenario: a root template embedding the same publication sub-file on two
successive lines. -/
def cfgC7 : Config :=
  { cfgBase with
    fs := fun p =>
      if p = s2l "t/main" then
        some [s2l "<!-- publication: p -->", s2l "<!-- publication: p -->"]
      else if p = s2l "t/p" then some [s2l "<!-- cc -->", s2l "B"]
      else none }

/-- The text `a`, a blank line, and `b` — source text whose Markdown
rendering is two paragraphs. -/
def twoParsIn : List Char := s2l "a" ++ '\n' :: '\n' :: s2l "b"

/-- The two-paragraph rendering of `twoParsIn`. -/
def twoParsOut : List Char := s2l "<p>a</p>" ++ '\n' :: s2l "<p>b</p>"

/-- Scenario: a Markdown renderer that renders `twoParsIn` as two
paragraphs. -/
def cfgC8 : Config :=
  { cfgBase with markdown := fun t => if t = twoParsIn then twoParsOut else t }

/-- Scenario: a Markdown renderer producing a single wrapped paragraph for
`m` and an unwrapped rendering for everything else. -/
def cfgC8w : Config :=
  { cfgBase with markdown := fun t => if t = s2l "m" then s2l "<p>mid</p>" else s2l "zz" }

/-- Scenario: the same filename `sh` exists both as a stylesheet source and
as a script source. -/
def cfgC9 : Config :=
  { cfgBase with
    fs := fun p =>
      if p = s2l "t/css/sh" then some [s2l "c"]
      else if p = s2l "t/js/sh" then some [s2l "j"]
      else none }

/-- Scenario for the reference-count counterexample: the value of `a` is
`x` followed by a bare opening marker and `b` — it contains no complete
variable reference, satisfying the claim's precondition. -/
def cfgC10 : Config :=
  { cfgBase with
    en := [(s2l "a", s2l "x" ++ mOpen ++ s2l "b"), (s2l "b", s2l "y")]
    cn := [(s2l "a", s2l "x" ++ mOpen ++ s2l "b"), (s2l "b", s2l "y")] }

/-- Scenario with brace-free catalog values, instantiating the termination
theorem. -/
def cfgC10w : Config :=
  { cfgBase with en := [(s2l "a", s2l "y")], cn := [(s2l "a", s2l "z")] }

/-- A list is a prefix of itself followed by anything. -/
theorem isPrefixOf_append_self (m t : List Char) : m.isPrefixOf (m ++ t) = true := by
  induction m with
  | nil => simp [List.isPrefixOf]
  | cons c m ih => simp [List.isPrefixOf, ih]

/-- Boolean prefix test gives an append decomposition. -/
theorem exists_append_of_isPrefixOf :
    ∀ (m l : List Char), m.isPrefixOf l = true → ∃ t, m ++ t = l := by
  intro m
  induction m with
  | nil => intro l _; exact ⟨l, rfl⟩
  | cons c m ih =>
    intro l h
    cases l with
    | nil => simp [List.isPrefixOf] at h
    | cons d l' =>
      simp only [List.isPrefixOf, Bool.and_eq_true, beq_iff_eq] at h
      obtain ⟨t, ht⟩ := ih l' h.2
      exact ⟨t, by simp [h.1, ht]⟩

/-- An occurrence inside the empty text forces the empty pattern. -/
theorem pattern_nil_of_occ_nil (m u t : List Char) (h : u ++ m ++ t = []) : m = [] := by
  have h1 := congrArg List.length h
  simp only [List.length_append, List.length_nil] at h1
  exact List.length_eq_zero.mp (by omega)

/-- Counting distributes over append. -/
theorem cnt_append (c : Char) : ∀ (a b : List Char), cnt c (a ++ b) = cnt c a + cnt c b := by
  intro a b
  induction a with
  | nil => simp [cnt]
  | cons d a ih => simp [cnt, ih]; omega

/-- Dropping characters cannot increase a count. -/
theorem cnt_drop_le (c : Char) (n : Nat) (l : List Char) : cnt c (l.drop n) ≤ cnt c l := by
  conv_rhs => rw [← List.take_append_drop n l]
  rw [cnt_append]
  omega

/-- Replacement with a text free of the counted character cannot increase the
count. -/
theorem replaceAllF_cnt_le (ch : Char) (m v : List Char) (hv : cnt ch v = 0) :
    ∀ (f : Nat) (l : List Char), cnt ch (replaceAllF m v f l) ≤ cnt ch l := by
  intro f
  induction f with
  | zero => intro l; exact Nat.le_refl _
  | succ f ih =>
    intro l
    cases l with
    | nil => exact Nat.le_refl _
    | cons c rest =>
      by_cases h : m.isPrefixOf (c :: rest) = true ∧ m ≠ []
      · rw [replaceAllF, if_pos h, cnt_append, hv]
        have h1 : cnt ch (replaceAllF m v f ((c :: rest).drop m.length))
            ≤ cnt ch ((c :: rest).drop m.length) := ih _
        have h2 : cnt ch ((c :: rest).drop m.length) ≤ cnt ch (c :: rest) :=
          cnt_drop_le ch _ _
        omega
      · rw [replaceAllF, if_neg h]
        simp only [cnt]
        have := ih rest
        omega

/-- Replacing an occurrence of a pattern holding at least two of the counted
character, by a text free of it, strictly decreases the count. -/
theorem replaceAllF_cnt_lt (ch : Char) (m v : List Char)
    (hv : cnt ch v = 0) (hm : 2 ≤ cnt ch m) :
    ∀ (f : Nat) (l : List Char), l.length ≤ f → (∃ u t, u ++ m ++ t = l) →
      cnt ch (replaceAllF m v f l) < cnt ch l := by
  have hmne : m ≠ [] := by
    intro h0
    rw [h0] at hm
    simp [cnt] at hm
  intro f
  induction f with
  | zero =>
    intro l hl hocc
    obtain ⟨u, t, hut⟩ := hocc
    have hnil : l = [] := List.length_eq_zero.mp (Nat.le_zero.mp hl)
    rw [hnil] at hut
    exact absurd (pattern_nil_of_occ_nil m u t hut) hmne
  | succ f ih =>
    intro l hl hocc
    obtain ⟨u, t, hut⟩ := hocc
    cases l with
    | nil => exact absurd (pattern_nil_of_occ_nil m u t hut) hmne
    | cons c rest =>
      by_cases h : m.isPrefixOf (c :: rest) = true ∧ m ≠ []
      · rw [replaceAllF, if_pos h, cnt_append, hv]
        obtain ⟨t2, ht2⟩ := exists_append_of_isPrefixOf m (c :: rest) h.1
        have hdrop : (c :: rest).drop m.length = t2 := by
          rw [← ht2]; exact List.drop_left m t2
        rw [hdrop]
        have h1 : cnt ch (replaceAllF m v f t2) ≤ cnt ch t2 := replaceAllF_cnt_le ch m v hv f t2
        have h2 : cnt ch (c :: rest) = cnt ch m + cnt ch t2 := by rw [← ht2, cnt_append]
        omega
      · have hnp : m.isPrefixOf (c :: rest) = false := by
          cases hb : m.isPrefixOf (c :: rest) with
          | false => rfl
          | true => exact absurd ⟨hb, hmne⟩ h
        rw [replaceAllF, if_neg h]
        simp only [cnt]
        have hocc' : ∃ u' t', u' ++ m ++ t' = rest := by
          cases u with
          | nil =>
            exfalso
            simp only [List.nil_append] at hut
            have hpre : m.isPrefixOf (c :: rest) = true := by
              rw [← hut]; exact isPrefixOf_append_self m t
            rw [hnp] at hpre
            exact Bool.noConfusion hpre
          | cons a u' =>
            refine ⟨u', t, ?_⟩
            have hcons : a :: (u' ++ m ++ t) = c :: rest := by simpa using hut
            have := List.cons.injEq a (u' ++ m ++ t) c rest ▸ hcons
            exact this.2
        have hlr : rest.length ≤ f := by
          simp only [List.length_cons] at hl
          omega
        have := ih rest hlr hocc'
        omega

/-- Shape and position of a head variable-reference match: the matched text
is the opening marker, the captured name, the closing marker, and it is a
prefix of the input. -/
theorem matchVarAt_spec (l m w : List Char) (h : matchVarAt l = some (m, w)) :
    (∃ t, m ++ t = l) ∧ m = '{' :: '{' :: (w ++ ['}', '}']) := by
  unfold matchVarAt at h
  split at h
  next rest =>
    split at h
    next tl heq =>
      split at h
      next => exact absurd h (by simp)
      next =>
        have hp := h
        rw [Option.some.injEq, Prod.mk.injEq] at hp
        obtain ⟨hm2, hw2⟩ := hp
        have hr := List.takeWhile_append_dropWhile (p := isVarChar) (l := rest)
        rw [heq] at hr
        constructor
        · refine ⟨tl, ?_⟩
          rw [← hm2]
          simp only [List.cons_append]
          refine congrArg (fun x => '{' :: '{' :: x) ?_
          rw [List.append_assoc]
          simpa using hr
        · rw [← hm2, ← hw2]
    next => exact absurd h (by simp)
  next => exact absurd h (by simp)

/-- Shape and position of the leftmost variable-reference match. -/
theorem findVar_spec :
    ∀ (l m w : List Char), findVar l = some (m, w) →
      (∃ u t, u ++ m ++ t = l) ∧ m = '{' :: '{' :: (w ++ ['}', '}']) := by
  intro l
  induction l with
  | nil => intro m w h; exact absurd h (by simp [findVar])
  | cons c rest ih =>
    intro m w h
    unfold findVar at h
    cases hm : matchVarAt (c :: rest) with
    | some r =>
      rw [hm] at h
      have hr : r = (m, w) := by injection h
      rw [hr] at hm
      obtain ⟨⟨t, ht⟩, hshape⟩ := matchVarAt_spec (c :: rest) m w hm
      exact ⟨⟨[], t, by simpa using ht⟩, hshape⟩
    | none =>
      rw [hm] at h
      obtain ⟨⟨u, t, hut⟩, hshape⟩ := ih m w h
      exact ⟨⟨c :: u, t, by simp [← hut]⟩, hshape⟩

/-- A successful association lookup produces a member of the list. -/
theorem alookup_mem :
    ∀ (l : List (List Char × List Char)) (k v : List Char),
      alookup k l = some v → (k, v) ∈ l := by
  intro l
  induction l with
  | nil => intro k v h; exact absurd h (by simp [alookup])
  | cons p rest ih =>
    intro k v h
    unfold alookup at h
    split at h
    next heq =>
      have h1 : p.2 = v := by injection h
      have hp : (k, v) = p := by rw [← heq, ← h1]
      rw [hp]
      exact List.mem_cons_self p rest
    next => exact List.mem_cons_of_mem p (ih k v h)

/-- The matched text of a variable reference holds two opening braces and
occurs inside the line. -/
theorem cnt_open_ref (line m w : List Char) (h : Regex.VARIABLE line = some (m, w)) :
    2 ≤ cnt '{' m ∧ ∃ u t, u ++ m ++ t = line := by
  obtain ⟨⟨u, t, hut⟩, hshape⟩ := findVar_spec line m w h
  refine ⟨?_, u, t, hut⟩
  rw [hshape]
  simp [cnt]
  omega

/-- A successful `pvStep` is exactly one iteration of the `parse_variable`
loop: the loop at one more unit of fuel continues on the stepped line,
possibly prepending a fallback warning. -/
theorem pvStep_is_one_iteration (cfg : Config) (assign : List (List Char × List Char))
    (fuel : Nat) (line l2 : List Char) (h : Compiler.pvStep cfg assign line = some l2) :
    ∃ pre : List Event,
      Compiler.parse_variable cfg assign (fuel + 1) line =
        (Compiler.parse_variable cfg assign fuel l2).map (fun r => (r.1, pre ++ r.2)) := by
  cases hf : Regex.VARIABLE line with
  | none =>
    simp only [Compiler.pvStep, hf] at h
    exact Option.noConfusion h
  | some mw =>
    obtain ⟨m, w⟩ := mw
    cases hl : alookup (Compiler.forceLang cfg (Compiler.redirect assign w)).2
        (cfg.catalog (Compiler.forceLang cfg (Compiler.redirect assign w)).1) with
    | some value =>
      simp only [Compiler.pvStep, hf, hl, Option.some.injEq] at h
      refine ⟨[], ?_⟩
      simp only [Compiler.parse_variable, hf, hl, h]
      cases Compiler.parse_variable cfg assign fuel l2 with
      | none => rfl
      | some r => simp
    | none =>
      cases hl2 : alookup (Compiler.forceLang cfg (Compiler.redirect assign w)).2 cfg.en with
      | some value =>
        simp only [Compiler.pvStep, hf, hl, hl2, Option.some.injEq] at h
        refine ⟨[Event.warnMissing (Compiler.forceLang cfg (Compiler.redirect assign w)).2], ?_⟩
        simp only [Compiler.parse_variable, hf, hl, hl2, h]
        cases Compiler.parse_variable cfg assign fuel l2 with
        | none => rfl
        | some r => simp
      | none =>
        simp only [Compiler.pvStep, hf, hl, hl2] at h
        exact Option.noConfusion h

/-- C10 (amended): variable resolution terminates on every input line under
the strengthened precondition that no catalog value, after Markdown
rendering by `parse_markdown`, contains an opening-brace character; each
substitution step then strictly decreases the number of opening braces in
the line, so fuel exceeding that number always completes the loop. -/
theorem parse_variable_terminates (cfg : Config) (hb : braceFreeVals cfg) :
    ∀ (n : Nat) (assign : List (List Char × List Char)) (line : List Char),
      cnt '{' line < n → (Compiler.parse_variable cfg assign n line).isSome = true := by
  intro n
  induction n with
  | zero => intro assign line h; exact absurd h (Nat.not_lt_zero _)
  | succ k ih =>
    intro assign line hlt
    cases hf : Regex.VARIABLE line with
    | none => simp [Compiler.parse_variable, hf]
    | some mw =>
      obtain ⟨m, w⟩ := mw
      obtain ⟨h2m, hocc⟩ := cnt_open_ref line m w hf
      cases hl : alookup (Compiler.forceLang cfg (Compiler.redirect assign w)).2
          (cfg.catalog (Compiler.forceLang cfg (Compiler.redirect assign w)).1) with
      | some value =>
        have hv : cnt '{' (Compiler.parse_markdown cfg value) = 0 := by
          cases hc : (Compiler.forceLang cfg (Compiler.redirect assign w)).1 with
          | en =>
            rw [hc] at hl
            exact hb.1 _ (alookup_mem _ _ _ hl)
          | cn =>
            rw [hc] at hl
            exact hb.2 _ (alookup_mem _ _ _ hl)
        have hlt2 : cnt '{' (replaceAll m (Compiler.parse_markdown cfg value) line)
            < cnt '{' line := by
          unfold replaceAll
          exact replaceAllF_cnt_lt '{' m _ hv h2m line.length line (Nat.le_refl _) hocc
        have hk : cnt '{' (replaceAll m (Compiler.parse_markdown cfg value) line) < k := by
          omega
        have hres := ih assign _ hk
        simp only [Compiler.parse_variable, hf, hl]
        exact hres
      | none =>
        cases hl2 : alookup (Compiler.forceLang cfg (Compiler.redirect assign w)).2 cfg.en with
        | some value =>
          have hv : cnt '{' (Compiler.parse_markdown cfg value) = 0 :=
            hb.1 _ (alookup_mem _ _ _ hl2)
          have hlt2 : cnt '{' (replaceAll m (Compiler.parse_markdown cfg value) line)
              < cnt '{' line := by
            unfold replaceAll
            exact replaceAllF_cnt_lt '{' m _ hv h2m line.length line (Nat.le_refl _) hocc
          have hk : cnt '{' (replaceAll m (Compiler.parse_markdown cfg value) line) < k := by
            omega
          have hres := ih assign _ hk
          simp only [Compiler.parse_variable, hf, hl, hl2]
          cases hrec : Compiler.parse_variable cfg assign k
              (replaceAll m (Compiler.parse_markdown cfg value) line) with
          | none =>
            rw [hrec] at hres
            simp at hres
          | some r => simp [hrec]
        | none =>
          simp [Compiler.parse_variable, hf, hl, hl2]

/-- C10 witness: a brace-free configuration and a line with one reference on
which the bounded loop completes. -/
theorem parse_variable_terminates_witness :
    braceFreeVals cfgC10w ∧
    (Compiler.parse_variable cfgC10w [] 3 (vref (s2l "a"))).isSome = true := by
  have hb : braceFreeVals cfgC10w := by
    unfold braceFreeVals
    exact ⟨by decide, by decide⟩
  exact ⟨hb, parse_variable_terminates cfgC10w hb 3 [] (vref (s2l "a")) (by decide)⟩

/-- C10 counterexample: a configuration satisfying the claim's stated
precondition (no catalog value renders to a complete reference) in which one
substitution step of `parse_variable` does not reduce the number of
references in the line — the value `x` followed by a bare opening marker
recombines with the line's trailing closing marker into a new reference. -/
theorem parse_variable_step_no_decrease :
    noRefVals cfgC10 ∧
    Compiler.pvStep cfgC10 [] (vref (s2l "a") ++ mClose) =
      some (s2l "x" ++ vref (s2l "b")) ∧
    ¬ (Compiler.countRefs (s2l "x" ++ vref (s2l "b")) <
       Compiler.countRefs (vref (s2l "a") ++ mClose)) := by
  refine ⟨?_, by decide, by decide⟩
  unfold noRefVals
  exact ⟨by decide, by decide⟩

/-- C3: evaluation of `parse_variable` at a name with an interior `_en`.
The active Chinese catalog defines `a_enb`, yet the resolver treats the
interior `_en` as a language-forcing suffix, strips the last three
characters, looks up the mangled name `a_` in English, and fails with an
error, leaving the reference in place. -/
theorem parse_variable_interior_en :
    Compiler.parse_variable cfgC3 [] 2 (vref (s2l "a_enb")) =
      some (vref (s2l "a_enb"),
            [Event.warnMissing (s2l "a_"), Event.errMissing (s2l "a_")]) ∧
    alookup (s2l "a_enb") (cfgC3.catalog cfgC3.current) = some (s2l "X") ∧
    Compiler.forceLang cfgC3 (s2l "a_enb") = (LangId.en, s2l "a_") := by
  refine ⟨by decide, by decide, by decide⟩

/-- C4 (amended): when the leftmost reference of a line names a variable
absent from both the selected catalog and the English fallback, resolution
stops there with a warning and an error logged, and the line is returned as
it stands — the unresolved reference and all following text are kept, and
because a value is returned, processing of subsequent lines and files
continues. -/
theorem parse_variable_missing_both (cfg : Config) (assign : List (List Char × List Char))
    (fuel : Nat) (line m w v : List Char) (lid : LangId)
    (hf : Regex.VARIABLE line = some (m, w))
    (hforce : Compiler.forceLang cfg (Compiler.redirect assign w) = (lid, v))
    (h1 : alookup v (cfg.catalog lid) = none)
    (h2 : alookup v cfg.en = none) :
    Compiler.parse_variable cfg assign (fuel + 1) line =
      some (line, [Event.warnMissing v, Event.errMissing v]) := by
  simp only [Compiler.parse_variable, hf, hforce, h1, h2]

/-- C4 witness: the amended theorem applied to a line starting with the
unknown reference `bad` followed by further text. -/
theorem parse_variable_missing_both_witness :
    Compiler.parse_variable cfgC4 [] 1 (vref (s2l "bad") ++ s2l " tail") =
      some (vref (s2l "bad") ++ s2l " tail",
            [Event.warnMissing (s2l "bad"), Event.errMissing (s2l "bad")]) :=
  parse_variable_missing_both cfgC4 [] 0 (vref (s2l "bad") ++ s2l " tail")
    (vref (s2l "bad")) (s2l "bad") (s2l "bad") LangId.en
    (by decide) (by decide) (by decide) (by decide)

/-- C4 counterexample: after resolving `good` the resolver meets the unknown
`bad` and returns the line with the unresolved reference and the trailing
text still present — not a line truncated after the last successfully
resolved reference. -/
theorem parse_variable_no_truncation :
    Compiler.parse_variable cfgC4 [] 3
        (s2l "A " ++ vref (s2l "good") ++ s2l " B " ++ vref (s2l "bad") ++ s2l " C") =
      some (s2l "A G B " ++ vref (s2l "bad") ++ s2l " C",
            [Event.warnMissing (s2l "bad"), Event.errMissing (s2l "bad")]) ∧
    s2l "A G B " ++ vref (s2l "bad") ++ s2l " C" ≠ s2l "A G B " ∧
    s2l "A G B " ++ vref (s2l "bad") ++ s2l " C" ≠ s2l "A G" := by
  refine ⟨by decide, by decide, by decide⟩

/-- C5: when the leftmost reference of a line names a variable absent from
the selected catalog but present in the English fallback, resolution
substitutes the fallback text (after Markdown rendering) for the reference,
logs a warning and no error, and the loop continues on the rest of the
line. -/
theorem parse_variable_fallback_warns (cfg : Config) (assign : List (List Char × List Char))
    (fuel : Nat) (line m w v val : List Char) (lid : LangId)
    (hf : Regex.VARIABLE line = some (m, w))
    (hforce : Compiler.forceLang cfg (Compiler.redirect assign w) = (lid, v))
    (h1 : alookup v (cfg.catalog lid) = none)
    (h2 : alookup v cfg.en = some val) :
    Compiler.parse_variable cfg assign (fuel + 1) line =
      (Compiler.parse_variable cfg assign fuel
          (replaceAll m (Compiler.parse_markdown cfg val) line)).map
        (fun r => (r.1, Event.warnMissing v :: r.2)) := by
  simp only [Compiler.parse_variable, hf, hforce, h1, h2]

/-- C5 witness: with Chinese active and `fb` defined only in English, the
reference resolves to the English text with a warning and no error. -/
theorem parse_variable_fallback_warns_witness :
    Compiler.parse_variable cfgC5 [] 2 (vref (s2l "fb")) =
      (Compiler.parse_variable cfgC5 [] 1
          (replaceAll (vref (s2l "fb")) (Compiler.parse_markdown cfgC5 (s2l "FB"))
            (vref (s2l "fb")))).map
        (fun r => (r.1, Event.warnMissing (s2l "fb") :: r.2)) ∧
    Compiler.parse_variable cfgC5 [] 2 (vref (s2l "fb")) =
      some (s2l "FB", [Event.warnMissing (s2l "fb")]) :=
  ⟨parse_variable_fallback_warns cfgC5 [] 1 (vref (s2l "fb")) (vref (s2l "fb"))
      (s2l "fb") (s2l "fb") (s2l "FB") LangId.cn
      (by decide) (by decide) (by decide) (by decide),
   by decide⟩

/-- Splitting off a nonempty single paragraph wrapper: a text of the shape
opener, body, closer satisfies the stripping condition of `parse_markdown`
and stripping recovers exactly the body. -/
theorem strip_wrap (mid r : List Char) (hmid : mid ≠ [])
    (hr : r = s2l "<p>" ++ mid ++ s2l "</p>") :
    (7 < r.length ∧ r.take 3 = s2l "<p>" ∧ r.drop (r.length - 4) = s2l "</p>") ∧
    (r.drop 3).take (r.length - 7) = mid := by
  have hpos : 0 < mid.length := List.length_pos.mpr hmid
  have hA : (s2l "<p>").length = 3 := rfl
  have hB : (s2l "</p>").length = 4 := rfl
  have hlen : r.length = mid.length + 7 := by
    rw [hr]
    simp only [List.length_append, hA, hB]
    omega
  refine ⟨⟨by omega, ?_, ?_⟩, ?_⟩
  · rw [hr, List.append_assoc]
    have h3 : (3 : Nat) = (s2l "<p>").length := rfl
    rw [h3]
    exact List.take_left _ _
  · have h4 : r.length - 4 = (s2l "<p>" ++ mid).length := by
      simp only [List.length_append, hA]
      omega
    rw [h4, hr]
    exact List.drop_left _ _
  · have h3 : (3 : Nat) = (s2l "<p>").length := rfl
    have h7 : r.length - 7 = mid.length := by omega
    rw [h7, hr, List.append_assoc, h3, List.drop_left]
    exact List.take_left _ _

/-- C8 (amended): `parse_markdown` strips the paragraph wrapper from every
rendering of the shape opener-body-closer with nonempty body — whether that
rendering is one paragraph or several — and returns the rendering unchanged
exactly when the stripping condition (length above 7, paragraph opener in
front, paragraph closer at the end) fails. -/
theorem parse_markdown_strips_single_wrap (cfg : Config) :
    (∀ t mid, mid ≠ [] →
       cfg.markdown (Compiler.mdPre t) = s2l "<p>" ++ mid ++ s2l "</p>" →
       Compiler.parse_markdown cfg t = mid) ∧
    (∀ t, ¬ (7 < (cfg.markdown (Compiler.mdPre t)).length ∧
             (cfg.markdown (Compiler.mdPre t)).take 3 = s2l "<p>" ∧
             (cfg.markdown (Compiler.mdPre t)).drop
                 ((cfg.markdown (Compiler.mdPre t)).length - 4) = s2l "</p>") →
       Compiler.parse_markdown cfg t = cfg.markdown (Compiler.mdPre t)) := by
  constructor
  · intro t mid hmid hr
    obtain ⟨hcond, hres⟩ := strip_wrap mid (cfg.markdown (Compiler.mdPre t)) hmid hr
    unfold Compiler.parse_markdown
    rw [if_pos hcond]
    exact hres
  · intro t hnc
    unfold Compiler.parse_markdown
    rw [if_neg hnc]

/-- C8 witness: the amended theorem applied to a renderer producing one
wrapped paragraph (stripped to its body) and to a rendering that fails the
shape test (returned unchanged). -/
theorem parse_markdown_strips_single_wrap_witness :
    Compiler.parse_markdown cfgC8w (s2l "m") = s2l "mid" ∧
    Compiler.parse_markdown cfgC8w (s2l "q") = s2l "zz" :=
  ⟨(parse_markdown_strips_single_wrap cfgC8w).1 (s2l "m") (s2l "mid") (by decide) (by decide),
   (parse_markdown_strips_single_wrap cfgC8w).2 (s2l "q") (by decide)⟩

/-- C8 counterexample: a two-paragraph Markdown rendering also starts with
the paragraph opener and ends with the paragraph closer, so `parse_markdown`
strips its outer markers instead of leaving it untouched. -/
theorem parse_markdown_strips_multi_paragraph :
    Compiler.parse_markdown cfgC8 twoParsIn = s2l "a</p>" ++ '\n' :: s2l "<p>b" ∧
    cfgC8.markdown (Compiler.mdPre twoParsIn) = twoParsOut ∧
    Compiler.parse_markdown cfgC8 twoParsIn ≠ twoParsOut := by
  refine ⟨by decide, by decide, by decide⟩

/-- C6: asset processing happens at most once per filename and run — a
cached filename returns at once with no read and no write, a fresh filename
is read, written and recorded, the processed-asset set only grows, a repeat
request after any successful call does no work — while a stylesheet or
script directive line always emits its reference tag, whether or not its
call performed new work. -/
theorem asset_build_at_most_once (cfg : Config) :
    (∀ f s, f ∈ s.built_dict → Compiler.compile_css cfg f s = some (false, s, [])) ∧
    (∀ f s, f ∈ s.built_dict → Compiler.compile_js cfg f s = some (false, s, [])) ∧
    (∀ f s lines, f ∉ s.built_dict → cfg.fs (Compiler.cssSrc cfg f) = some lines →
       Compiler.compile_css cfg f s =
         some (true, { s with built_dict := f :: s.built_dict },
               [Event.readFile (Compiler.cssSrc cfg f),
                Event.writeFile (Compiler.cssOut cfg f)])) ∧
    (∀ f s r s2 evs, Compiler.compile_css cfg f s = some (r, s2, evs) →
       Compiler.compile_css cfg f s2 = some (false, s2, []) ∧
       ∀ x ∈ s.built_dict, x ∈ s2.built_dict) ∧
    (∀ f s r s2 evs, Compiler.compile_js cfg f s = some (r, s2, evs) →
       Compiler.compile_js cfg f s2 = some (false, s2, []) ∧
       ∀ x ∈ s.built_dict, x ∈ s2.built_dict) ∧
    (∀ line s f rec pv, hasMarker line = true → Regex.ASSIGN line = none →
       Regex.INCLUDE line = none → Regex.CSS line = some f →
       Compiler.processLine cfg rec pv line s =
         (Compiler.compile_css cfg f s).map
           (fun r => (Compiler.linkTag cfg f, r.2.1, Event.logCss f :: r.2.2))) ∧
    (∀ line s f rec pv, hasMarker line = true → Regex.ASSIGN line = none →
       Regex.INCLUDE line = none → Regex.CSS line = none → Regex.JS line = some f →
       Compiler.processLine cfg rec pv line s =
         (Compiler.compile_js cfg f s).map
           (fun r => (Compiler.scriptTag cfg f, r.2.1, Event.logJs f :: r.2.2))) := by
  have hcss : ∀ f s r s2 evs, Compiler.compile_css cfg f s = some (r, s2, evs) →
      Compiler.compile_css cfg f s2 = some (false, s2, []) ∧
      ∀ x ∈ s.built_dict, x ∈ s2.built_dict := by
    intro f s r s2 evs h
    unfold Compiler.compile_css at h
    by_cases hm : f ∈ s.built_dict
    · rw [if_pos hm] at h
      rw [Option.some.injEq, Prod.mk.injEq, Prod.mk.injEq] at h
      obtain ⟨-, hs, -⟩ := h
      rw [← hs]
      refine ⟨?_, fun x hx => hx⟩
      unfold Compiler.compile_css
      rw [if_pos hm]
    · rw [if_neg hm] at h
      cases hfs : cfg.fs (Compiler.cssSrc cfg f) with
      | none =>
        rw [hfs] at h
        exact Option.noConfusion h
      | some lines =>
        rw [hfs] at h
        rw [Option.some.injEq, Prod.mk.injEq, Prod.mk.injEq] at h
        obtain ⟨-, hs, -⟩ := h
        rw [← hs]
        constructor
        · unfold Compiler.compile_css
          rw [if_pos (List.mem_cons_self f s.built_dict)]
        · intro x hx
          exact List.mem_cons_of_mem f hx
  have hjs : ∀ f s r s2 evs, Compiler.compile_js cfg f s = some (r, s2, evs) →
      Compiler.compile_js cfg f s2 = some (false, s2, []) ∧
      ∀ x ∈ s.built_dict, x ∈ s2.built_dict := by
    intro f s r s2 evs h
    unfold Compiler.compile_js at h
    by_cases hm : f ∈ s.built_dict
    · rw [if_pos hm] at h
      rw [Option.some.injEq, Prod.mk.injEq, Prod.mk.injEq] at h
      obtain ⟨-, hs, -⟩ := h
      rw [← hs]
      refine ⟨?_, fun x hx => hx⟩
      unfold Compiler.compile_js
      rw [if_pos hm]
    · rw [if_neg hm] at h
      cases hfs : cfg.fs (Compiler.jsSrc cfg f) with
      | none =>
        rw [hfs] at h
        exact Option.noConfusion h
      | some lines =>
        rw [hfs] at h
        rw [Option.some.injEq, Prod.mk.injEq, Prod.mk.injEq] at h
        obtain ⟨-, hs, -⟩ := h
        rw [← hs]
        constructor
        · unfold Compiler.compile_js
          rw [if_pos (List.mem_cons_self f s.built_dict)]
        · intro x hx
          exact List.mem_cons_of_mem f hx
  refine ⟨?_, ?_, ?_, hcss, hjs, ?_, ?_⟩
  · intro f s h
    unfold Compiler.compile_css
    rw [if_pos h]
  · intro f s h
    unfold Compiler.compile_js
    rw [if_pos h]
  · intro f s lines hne hfs
    unfold Compiler.compile_css
    rw [if_neg hne, hfs]
  · intro line s f rec pv hmark ha hi hc
    simp only [Compiler.processLine, hmark, ha, hi, hc]
    rw [if_pos trivial]
  · intro line s f rec pv hmark ha hi hc hj
    simp only [Compiler.processLine, hmark, ha, hi, hc, hj]
    rw [if_pos trivial]

/-- C6 witness: the seven parts of the theorem applied at concrete states
and files of the `cfgC6` template tree. -/
theorem asset_build_at_most_once_witness :
    Compiler.compile_css cfgC6 (s2l "a.css") ⟨[], [s2l "a.css"], []⟩ =
      some (false, ⟨[], [s2l "a.css"], []⟩, []) ∧
    Compiler.compile_js cfgC6 (s2l "a.js") ⟨[], [s2l "a.js"], []⟩ =
      some (false, ⟨[], [s2l "a.js"], []⟩, []) ∧
    Compiler.compile_css cfgC6 (s2l "a.css") st0 =
      some (true, { st0 with built_dict := s2l "a.css" :: st0.built_dict },
            [Event.readFile (Compiler.cssSrc cfgC6 (s2l "a.css")),
             Event.writeFile (Compiler.cssOut cfgC6 (s2l "a.css"))]) ∧
    (Compiler.compile_css cfgC6 (s2l "a.css") ⟨[], [s2l "a.css"], []⟩ =
       some (false, ⟨[], [s2l "a.css"], []⟩, []) ∧
     ∀ x ∈ ([] : List (List Char)), x ∈ ([s2l "a.css"] : List (List Char))) ∧
    (Compiler.compile_js cfgC6 (s2l "a.js") ⟨[], [s2l "a.js"], []⟩ =
       some (false, ⟨[], [s2l "a.js"], []⟩, []) ∧
     ∀ x ∈ ([] : List (List Char)), x ∈ ([s2l "a.js"] : List (List Char))) ∧
    Compiler.processLine cfgC6 recW 1 (s2l "<!-- css: a.css -->") st0 =
      (Compiler.compile_css cfgC6 (s2l "a.css") st0).map
        (fun r => (Compiler.linkTag cfgC6 (s2l "a.css"), r.2.1,
                   Event.logCss (s2l "a.css") :: r.2.2)) ∧
    Compiler.processLine cfgC6 recW 1 (s2l "<!-- js: a.js -->") st0 =
      (Compiler.compile_js cfgC6 (s2l "a.js") st0).map
        (fun r => (Compiler.scriptTag cfgC6 (s2l "a.js"), r.2.1,
                   Event.logJs (s2l "a.js") :: r.2.2)) := by
  obtain ⟨t1, t2, t3, t4, t5, t6, t7⟩ := asset_build_at_most_once cfgC6
  refine ⟨t1 (s2l "a.css") ⟨[], [s2l "a.css"], []⟩ (by decide),
          t2 (s2l "a.js") ⟨[], [s2l "a.js"], []⟩ (by decide),
          t3 (s2l "a.css") st0 [s2l "x"] (by decide) (by decide),
          t4 (s2l "a.css") st0 true ⟨[], [s2l "a.css"], []⟩
            [Event.readFile (Compiler.cssSrc cfgC6 (s2l "a.css")),
             Event.writeFile (Compiler.cssOut cfgC6 (s2l "a.css"))] (by decide),
          t5 (s2l "a.js") st0 true ⟨[], [s2l "a.js"], []⟩
            [Event.readFile (Compiler.jsSrc cfgC6 (s2l "a.js")),
             Event.writeFile (Compiler.jsOut cfgC6 (s2l "a.js"))] (by decide),
          t6 (s2l "<!-- css: a.css -->") st0 (s2l "a.css") recW 1
            (by decide) (by decide) (by decide) (by decide),
          t7 (s2l "<!-- js: a.js -->") st0 (s2l "a.js") recW 1
            (by decide) (by decide) (by decide) (by decide) (by decide)⟩

/-- C9: the stylesheet and script pipelines share the single processed-asset
set, so after a successful stylesheet build of a filename a script request
for the same filename returns `false` with no read and no write — the file
was never processed as a script — and symmetrically. -/
theorem built_dict_shared_css_js (cfg : Config) :
    (∀ f s s2 evs, Compiler.compile_css cfg f s = some (true, s2, evs) →
       Compiler.compile_js cfg f s2 = some (false, s2, [])) ∧
    (∀ f s s2 evs, Compiler.compile_js cfg f s = some (true, s2, evs) →
       Compiler.compile_css cfg f s2 = some (false, s2, [])) := by
  constructor
  · intro f s s2 evs h
    unfold Compiler.compile_css at h
    by_cases hm : f ∈ s.built_dict
    · rw [if_pos hm] at h
      rw [Option.some.injEq, Prod.mk.injEq] at h
      exact absurd h.1.symm (by simp)
    · rw [if_neg hm] at h
      cases hfs : cfg.fs (Compiler.cssSrc cfg f) with
      | none =>
        rw [hfs] at h
        exact Option.noConfusion h
      | some lines =>
        rw [hfs] at h
        rw [Option.some.injEq, Prod.mk.injEq, Prod.mk.injEq] at h
        obtain ⟨-, hs, -⟩ := h
        rw [← hs]
        unfold Compiler.compile_js
        rw [if_pos (List.mem_cons_self f s.built_dict)]
  · intro f s s2 evs h
    unfold Compiler.compile_js at h
    by_cases hm : f ∈ s.built_dict
    · rw [if_pos hm] at h
      rw [Option.some.injEq, Prod.mk.injEq] at h
      exact absurd h.1.symm (by simp)
    · rw [if_neg hm] at h
      cases hfs : cfg.fs (Compiler.jsSrc cfg f) with
      | none =>
        rw [hfs] at h
        exact Option.noConfusion h
      | some lines =>
        rw [hfs] at h
        rw [Option.some.injEq, Prod.mk.injEq, Prod.mk.injEq] at h
        obtain ⟨-, hs, -⟩ := h
        rw [← hs]
        unfold Compiler.compile_css
        rw [if_pos (List.mem_cons_self f s.built_dict)]

/-- C9 witness: building the stylesheet `sh` and then requesting `sh` as a
script returns `false` with an empty trace, although `sh` was never
processed as a script. -/
theorem built_dict_shared_css_js_witness :
    Compiler.compile_css cfgC9 (s2l "sh") st0 =
      some (true, ⟨[], [s2l "sh"], []⟩,
            [Event.readFile (s2l "t/css/sh"), Event.writeFile (s2l "b/css/sh")]) ∧
    Compiler.compile_js cfgC9 (s2l "sh") ⟨[], [s2l "sh"], []⟩ =
      some (false, ⟨[], [s2l "sh"], []⟩, []) :=
  ⟨by decide,
   (built_dict_shared_css_js cfgC9).1 (s2l "sh") st0 ⟨[], [s2l "sh"], []⟩
     [Event.readFile (s2l "t/css/sh"), Event.writeFile (s2l "b/css/sh")] (by decide)⟩

/-- Every successful `compile` leaves its result in the render cache under
the requested filename. -/
theorem compile_stores :
    ∀ (cfg : Config) (fuel : Nat) (w : Bool) (f : List Char) (s : CState)
      (h : List Char) (s1 : CState) (evs : List Event),
      Compiler.compile cfg fuel w f s = some (h, s1, evs) →
      alookup f s1.built_html = some h := by
  intro cfg fuel w f s h s1 evs hc
  cases fuel with
  | zero => exact Option.noConfusion hc
  | succ k =>
    unfold Compiler.compile at hc
    split at hc
    · rw [Option.some.injEq, Prod.mk.injEq, Prod.mk.injEq] at hc
      obtain ⟨hh, hs, -⟩ := hc
      rename_i h0 heq
      rw [← hs, heq, hh]
    · split at hc
      · exact Option.noConfusion hc
      · split at hc
        · exact Option.noConfusion hc
        · rw [Option.some.injEq, Prod.mk.injEq, Prod.mk.injEq] at hc
          obtain ⟨hh, hs, -⟩ := hc
          subst hh
          rw [← hs]
          simp [alookup]

/-- C1: a second `compile` of a filename already rendered in this run
returns exactly the cached value at once — the trace is the single
cache-hit log line, so the source is not re-read and no line is processed —
for any filesystem contents and any assignment-table contents at the time
of the second call. -/
theorem compile_returns_cached_render (cfg cfg2 : Config) (fuel fuel2 : Nat)
    (w w2 : Bool) (f : List Char) (s s1 : CState) (h : List Char) (evs : List Event)
    (assign2 : List (List Char × List Char))
    (hc : Compiler.compile cfg fuel w f s = some (h, s1, evs)) :
    Compiler.compile cfg2 (fuel2 + 1) w2 f { s1 with assign := assign2 } =
      some (h, { s1 with assign := assign2 }, [Event.logReuse f]) := by
  have hal : alookup f ({ s1 with assign := assign2 } : CState).built_html = some h :=
    compile_stores cfg fuel w f s h s1 evs hc
  unfold Compiler.compile
  rw [hal]

/-- C1 witness: rendering `f` once, then rendering it again with a mutated
source file and a mutated assignment table returns the cached text with only
the cache-hit log line. -/
theorem compile_returns_cached_render_witness :
    Compiler.compile cfgC1 1 false (s2l "f") st0 =
      some (s2l "hi", ⟨[], [], [(s2l "f", s2l "hi")]⟩, [Event.readFile (s2l "t/f")]) ∧
    Compiler.compile cfgC1b 2 true (s2l "f")
        ⟨[(s2l "x", s2l "y")], [], [(s2l "f", s2l "hi")]⟩ =
      some (s2l "hi", ⟨[(s2l "x", s2l "y")], [], [(s2l "f", s2l "hi")]⟩,
            [Event.logReuse (s2l "f")]) :=
  ⟨by decide,
   compile_returns_cached_render cfgC1 cfgC1b 1 1 false true (s2l "f") st0
     ⟨[], [], [(s2l "f", s2l "hi")]⟩ (s2l "hi") [Event.readFile (s2l "t/f")]
     [(s2l "x", s2l "y")] (by decide)⟩

/-- C7: evaluation showing the render cache is never fed by the embed path.
A root file embedding the same publication sub-file on two successive lines
re-reads the sub-file and re-invokes the structured-data renderer for the
second embed, and the sub-file's identifier is absent from the render cache
when the run ends — `compile_publication` checks the cache but nothing ever
stores an embed rendering into it. -/
theorem compile_publication_recomputes :
    Compiler.compile cfgC7 1 false (s2l "main") st0 =
      some (s2l "PP", ⟨[], [], [(s2l "main", s2l "PP")]⟩,
            [Event.readFile (s2l "t/main"),
             Event.readFile (s2l "t/p"), Event.fillPapers (s2l "t/p"),
             Event.readFile (s2l "t/p"), Event.fillPapers (s2l "t/p")]) ∧
    alookup (s2l "t/p") (⟨[], [], [(s2l "main", s2l "PP")]⟩ : CState).built_html = none := by
  refine ⟨by decide, by decide⟩

/-- C2: on a line carrying a directive marker the structural patterns are
tried in the fixed order assignment, include, stylesheet, script, and the
first match fully determines the line — an assignment line contributes
nothing and only updates the assignment table, an include line is exactly
the recursive render, a stylesheet or script line is exactly the asset call
plus its tag, all regardless of what later patterns would match and with no
variable resolution; the image pattern is checked only after those four and
an image line still undergoes variable resolution, as do a
publication-embed line, an art-embed line, and a line matching no
structural pattern at all. -/
theorem compile_directive_priority (cfg : Config)
    (rec : List Char → CState → Option (List Char × CState × List Event))
    (pv : Nat) (s : CState)
    (l1 a b : List Char) (hm1 : hasMarker l1 = true)
    (h1 : Regex.ASSIGN l1 = some (a, b))
    (l2 inc : List Char) (hm2 : hasMarker l2 = true)
    (h2a : Regex.ASSIGN l2 = none) (h2b : Regex.INCLUDE l2 = some inc)
    (l3 f3 : List Char) (hm3 : hasMarker l3 = true)
    (h3a : Regex.ASSIGN l3 = none) (h3b : Regex.INCLUDE l3 = none)
    (h3c : Regex.CSS l3 = some f3)
    (l4 f4 : List Char) (hm4 : hasMarker l4 = true)
    (h4a : Regex.ASSIGN l4 = none) (h4b : Regex.INCLUDE l4 = none)
    (h4c : Regex.CSS l4 = none) (h4d : Regex.JS l4 = some f4)
    (l5 p5 d5 d5' : List Char) (e5 : List Event) (hm5 : hasMarker l5 = true)
    (h5a : Regex.ASSIGN l5 = none) (h5b : Regex.INCLUDE l5 = none)
    (h5c : Regex.CSS l5 = none) (h5d : Regex.JS l5 = none)
    (h5e : Regex.IMAGE l5 = some (p5, d5))
    (hd5 : Compiler.parse_variable cfg s.assign pv d5 = some (d5', e5))
    (h5p : Regex.PUBLICATION
        (cfg.markdown (cfg.getImage ('/' :: joinP cfg.dirImages p5) d5')) = none)
    (h5q : Regex.ART
        (cfg.markdown (cfg.getImage ('/' :: joinP cfg.dirImages p5) d5')) = none)
    (l6 : List Char) (hm6 : hasMarker l6 = true)
    (h6a : Regex.ASSIGN l6 = none) (h6b : Regex.INCLUDE l6 = none)
    (h6c : Regex.CSS l6 = none) (h6d : Regex.JS l6 = none)
    (h6e : Regex.IMAGE l6 = none) (h6p : Regex.PUBLICATION l6 = none)
    (h6q : Regex.ART l6 = none)
    (l7 pf lp : List Char) (ep : List Event) (hm7 : hasMarker l7 = true)
    (h7a : Regex.ASSIGN l7 = none) (h7b : Regex.INCLUDE l7 = none)
    (h7c : Regex.CSS l7 = none) (h7d : Regex.JS l7 = none)
    (h7e : Regex.IMAGE l7 = none) (h7p : Regex.PUBLICATION l7 = some pf)
    (hpub : Compiler.compile_publication cfg s (joinP cfg.dirTemplates pf) = some (lp, ep))
    (h7q : Regex.ART lp = none)
    (l8 af la : List Char) (ea : List Event) (hm8 : hasMarker l8 = true)
    (h8a : Regex.ASSIGN l8 = none) (h8b : Regex.INCLUDE l8 = none)
    (h8c : Regex.CSS l8 = none) (h8d : Regex.JS l8 = none)
    (h8e : Regex.IMAGE l8 = none) (h8p : Regex.PUBLICATION l8 = none)
    (h8q : Regex.ART l8 = some af)
    (hart : Compiler.compile_art cfg s (joinP cfg.dirTemplates af) = some (la, ea)) :
    Compiler.processLine cfg rec pv l1 s =
      some ([], { s with assign := (a, b) :: s.assign }, []) ∧
    Compiler.processLine cfg rec pv l2 s =
      (rec inc s).map (fun r => (r.1, r.2.1, Event.logInclude inc :: r.2.2)) ∧
    Compiler.processLine cfg rec pv l3 s =
      (Compiler.compile_css cfg f3 s).map
        (fun r => (Compiler.linkTag cfg f3, r.2.1, Event.logCss f3 :: r.2.2)) ∧
    Compiler.processLine cfg rec pv l4 s =
      (Compiler.compile_js cfg f4 s).map
        (fun r => (Compiler.scriptTag cfg f4, r.2.1, Event.logJs f4 :: r.2.2)) ∧
    Compiler.processLine cfg rec pv l5 s =
      (Compiler.parse_variable cfg s.assign pv
          (cfg.markdown (cfg.getImage ('/' :: joinP cfg.dirImages p5) d5'))).map
        (fun r => (r.1, s, e5 ++ r.2)) ∧
    Compiler.processLine cfg rec pv l6 s =
      (Compiler.parse_variable cfg s.assign pv l6).map (fun r => (r.1, s, r.2)) ∧
    Compiler.processLine cfg rec pv l7 s =
      (Compiler.parse_variable cfg s.assign pv lp).map (fun r => (r.1, s, ep ++ r.2)) ∧
    Compiler.processLine cfg rec pv l8 s =
      (Compiler.parse_variable cfg s.assign pv la).map (fun r => (r.1, s, ea ++ r.2)) := by
  refine ⟨?_, ?_, ?_, ?_, ?_, ?_, ?_, ?_⟩
  · simp only [Compiler.processLine, hm1, h1]
    rw [if_pos trivial]
  · simp only [Compiler.processLine, hm2, h2a, h2b]
    rw [if_pos trivial]
  · simp only [Compiler.processLine, hm3, h3a, h3b, h3c]
    rw [if_pos trivial]
  · simp only [Compiler.processLine, hm4, h4a, h4b, h4c, h4d]
    rw [if_pos trivial]
  · simp only [Compiler.processLine, hm5, h5a, h5b, h5c, h5d]
    rw [if_pos trivial]
    simp only [Compiler.processTail, h5e, hd5, Option.map_some', h5p, h5q]
    cases hfin : Compiler.parse_variable cfg s.assign pv
        (cfg.markdown (cfg.getImage ('/' :: joinP cfg.dirImages p5) d5')) with
    | none => simp
    | some r => simp
  · simp only [Compiler.processLine, hm6, h6a, h6b, h6c, h6d]
    rw [if_pos trivial]
    simp only [Compiler.processTail, h6e, h6p, h6q]
    cases hfin : Compiler.parse_variable cfg s.assign pv l6 with
    | none => simp
    | some r => simp
  · simp only [Compiler.processLine, hm7, h7a, h7b, h7c, h7d]
    rw [if_pos trivial]
    simp only [Compiler.processTail, h7e, h7p, hpub, h7q]
    cases hfin : Compiler.parse_variable cfg s.assign pv lp with
    | none => simp
    | some r => simp
  · simp only [Compiler.processLine, hm8, h8a, h8b, h8c, h8d]
    rw [if_pos trivial]
    simp only [Compiler.processTail, h8e, h8p, h8q, hart]
    cases hfin : Compiler.parse_variable cfg s.assign pv la with
    | none => simp
    | some r => simp

/-- C2 witness: the eight scenario lines instantiated concretely — an
assignment, an include, a stylesheet, a script, an image embed, a line with
only a variable reference, a publication embed, and an art embed. -/
theorem compile_directive_priority_witness :
    Compiler.processLine cfgC2b recW 2 (s2l "<!-- x = y -->") st0 =
      some ([], { st0 with assign := (s2l "x", s2l "y") :: st0.assign }, []) ∧
    Compiler.processLine cfgC2b recW 2 (s2l "<!-- include: inc.html -->") st0 =
      (recW (s2l "inc.html") st0).map
        (fun r => (r.1, r.2.1, Event.logInclude (s2l "inc.html") :: r.2.2)) ∧
    Compiler.processLine cfgC2b recW 2 (s2l "<!-- css: a.css -->") st0 =
      (Compiler.compile_css cfgC2b (s2l "a.css") st0).map
        (fun r => (Compiler.linkTag cfgC2b (s2l "a.css"), r.2.1,
                   Event.logCss (s2l "a.css") :: r.2.2)) ∧
    Compiler.processLine cfgC2b recW 2 (s2l "<!-- js: a.js -->") st0 =
      (Compiler.compile_js cfgC2b (s2l "a.js") st0).map
        (fun r => (Compiler.scriptTag cfgC2b (s2l "a.js"), r.2.1,
                   Event.logJs (s2l "a.js") :: r.2.2)) ∧
    Compiler.processLine cfgC2b recW 2 (s2l "<!-- image: i.png | d -->") st0 =
      (Compiler.parse_variable cfgC2b st0.assign 2
          (cfgC2b.markdown (cfgC2b.getImage ('/' :: joinP cfgC2b.dirImages (s2l "i.png"))
            (s2l "d")))).map
        (fun r => (r.1, st0, [] ++ r.2)) ∧
    Compiler.processLine cfgC2b recW 2 (s2l "x " ++ vref (s2l "v") ++ s2l " y") st0 =
      (Compiler.parse_variable cfgC2b st0.assign 2
          (s2l "x " ++ vref (s2l "v") ++ s2l " y")).map (fun r => (r.1, st0, r.2)) ∧
    Compiler.processLine cfgC2b recW 2 (s2l "<!-- publication: pub.p -->") st0 =
      (Compiler.parse_variable cfgC2b st0.assign 2 (s2l "P")).map
        (fun r => (r.1, st0,
                   [Event.readFile (s2l "t/pub.p"), Event.fillPapers (s2l "t/pub.p")] ++ r.2)) ∧
    Compiler.processLine cfgC2b recW 2 (s2l "<!-- art: art.a -->") st0 =
      (Compiler.parse_variable cfgC2b st0.assign 2 (s2l "A")).map
        (fun r => (r.1, st0,
                   [Event.readFile (s2l "t/art.a"), Event.fillArts (s2l "t/art.a")] ++ r.2)) :=
  compile_directive_priority cfgC2b recW 2 st0
    (s2l "<!-- x = y -->") (s2l "x") (s2l "y") (by decide) (by decide)
    (s2l "<!-- include: inc.html -->") (s2l "inc.html") (by decide) (by decide) (by decide)
    (s2l "<!-- css: a.css -->") (s2l "a.css") (by decide) (by decide) (by decide) (by decide)
    (s2l "<!-- js: a.js -->") (s2l "a.js") (by decide) (by decide) (by decide) (by decide)
      (by decide)
    (s2l "<!-- image: i.png | d -->") (s2l "i.png") (s2l "d") (s2l "d") []
      (by decide) (by decide) (by decide) (by decide) (by decide) (by decide) (by decide)
      (by decide) (by decide)
    (s2l "x " ++ vref (s2l "v") ++ s2l " y") (by decide) (by decide) (by decide) (by decide)
      (by decide) (by decide) (by decide) (by decide)
    (s2l "<!-- publication: pub.p -->") (s2l "pub.p") (s2l "P")
      [Event.readFile (s2l "t/pub.p"), Event.fillPapers (s2l "t/pub.p")]
      (by decide) (by decide) (by decide) (by decide) (by decide) (by decide) (by decide)
      (by decide) (by decide)
    (s2l "<!-- art: art.a -->") (s2l "art.a") (s2l "A")
      [Event.readFile (s2l "t/art.a"), Event.fillArts (s2l "t/art.a")]
      (by decide) (by decide) (by decide) (by decide) (by decide) (by decide) (by decide)
      (by decide) (by decide)

